import Mathlib

/-!
Verification development for the elevator dispatch-and-movement engine.

The repository contains two near-duplicate service modules:
the queue-based service (the WebSocket-enabled module with per-unit
floor queues) and the base service in src/services/ElevatorService.ts.
The queue-based one is embedded in namespace ElevatorSim; the base one
in namespace ElevatorSim.BaseSvc.  Timestamps (lastUpdated), database
plumbing and WebSocket broadcasting are not modelled; every
db.updateElevator call is modelled as one persisted write, and the
in-memory floor queue is paired with the elevator record at each write.
-/

namespace ElevatorSim

/-- Travel direction of an elevator car; the TypeScript field is the
string union "up" | "down" and is nullable (modelled with Option). -/
inductive Dir where
  | up
  | down
deriving DecidableEq, Repr

/-- Persisted motion state of an elevator car, the TypeScript string
union for the state column. -/
inductive EState where
  | idle
  | moving_up
  | moving_down
  | doors_opening
  | doors_open
  | doors_closing
deriving DecidableEq, Repr

/-- Elevator record as stored by the database layer.  targetFloor is
nullable in SQL (none) and the engine also writes the number 0 for
"no target"; both are JavaScript-falsy.  lastUpdated is omitted. -/
structure Elevator where
  id : String
  currentFloor : Int
  targetFloor : Option Int
  direction : Option Dir
  state : EState
  isMoving : Bool
deriving DecidableEq, Repr

/-- Building configuration: totalFloors, floorMoveTime (seconds per
floor) and doorOpenCloseTime (seconds per door phase).  Times are
rationals since the spec uses fractional seconds. -/
structure BuildingConfig where
  totalFloors : Int
  floorMoveTime : ℚ
  doorOpenCloseTime : ℚ
deriving DecidableEq, Repr

/-- JavaScript falsiness of the targetFloor field as tested by the
guard in moveElevator: null, undefined and 0 are all falsy. -/
def isFalsyTarget : Option Int → Bool
  | none => true
  | some t => t == 0

/-- Scoring of one elevator against a pickup floor, transcribed from
findBestElevator in the queue-based service: 10 per floor of distance,
minus 50 when the state is idle, and when the isMoving flag is set with
a non-null direction, minus 20 when moving toward the pickup floor and
plus 30 otherwise. -/
def score (e : Elevator) (fromFloor : Int) : Int :=
  let distance : Int := |e.currentFloor - fromFloor|
  let s1 : Int := distance * 10
  let s2 : Int := if e.state = EState.idle then s1 - 50 else s1
  if e.isMoving = true ∧ e.direction ≠ none then
    let isMovingTowards : Prop :=
      (e.direction = some Dir.up ∧ fromFloor > e.currentFloor) ∨
      (e.direction = some Dir.down ∧ fromFloor < e.currentFloor)
    if isMovingTowards then s2 - 20 else s2 + 30
  else s2

instance : ∀ (e : Elevator) (fromFloor : Int),
    Decidable ((e.direction = some Dir.up ∧ fromFloor > e.currentFloor) ∨
      (e.direction = some Dir.down ∧ fromFloor < e.currentFloor)) :=
  fun _ _ => inferInstance

/-- Insertion step of a stable sort by score: the new element goes in
front of the first already-placed element with score greater than or
equal to its own.  JavaScript's Array.prototype.sort with the
comparator a.score - b.score is guaranteed stable, so the sorted
array's element 0 is the first element of the original array that
attains the minimal score, which this stable sort reproduces. -/
def insertByScore (x : Elevator × Int) : List (Elevator × Int) → List (Elevator × Int)
  | [] => [x]
  | y :: ys => if x.2 ≤ y.2 then x :: y :: ys else y :: insertByScore x ys

/-- Stable sort by ascending score, modelling the sort call in
findBestElevator. -/
def sortByScore : List (Elevator × Int) → List (Elevator × Int)
  | [] => []
  | x :: xs => insertByScore x (sortByScore xs)

/-- Dispatch selector of the queue-based service: score every unit,
sort ascending and take element 0.  An empty fleet gives none, which
models the thrown TypeError from indexing an empty array. -/
def findBestElevator (fleet : List Elevator) (fromFloor : Int) : Option Elevator :=
  let scored := fleet.map (fun e => (e, score e fromFloor))
  (sortByScore scored).head?.map (fun p => p.1)

/-- Advisory time estimate of the queue-based service: floors to move
for the new leg only, times floorMoveTime, plus one door open and one
door close. -/
def calculateEstimatedTime (e : Elevator) (fromFloor toFloor : Int)
    (cfg : BuildingConfig) : ℚ :=
  let floorsToMove : Int := |e.currentFloor - fromFloor| + |fromFloor - toFloor|
  (floorsToMove : ℚ) * cfg.floorMoveTime + cfg.doorOpenCloseTime * 2

/-- First element attaining the minimal score, with ties resolved to
the earlier element.  Used only in proofs about findBestElevator. -/
def firstMin : List (Elevator × Int) → Option (Elevator × Int)
  | [] => none
  | x :: xs =>
    match firstMin xs with
    | none => some x
    | some y => if y.2 < x.2 then some y else some x


/-- Per-unit engine state: the elevator record paired with the
in-memory floor queue the service holds for that unit. -/
structure UnitState where
  e : Elevator
  queue : List Int
deriving DecidableEq, Repr

/-- Kind of an event-log entry, the string written to the event column
of the log table. -/
inductive EventKind where
  | elevator_called
  | floor_reached
  | doors_opening
  | doors_open
  | doors_closing
  | elevator_idle
deriving DecidableEq, Repr

/-- Event-log entry as appended through the database layer; the
dynamic parts of the detail strings are not modelled. -/
structure EventRec where
  event : EventKind
  fromFloor : Int
  toFloor : Int
  details : String
deriving DecidableEq, Repr

/-- Result of one invocation of moveElevator: the persisted writes in
order, each paired with the in-memory queue at the moment of the
write, the events logged, the resulting engine state, and whether a
further invocation is pending (a scheduled tick, or the immediate
restart after a queue continuation). -/
structure TickOut where
  writes : List UnitState
  events : List EventRec
  final : UnitState
  again : Bool
deriving DecidableEq, Repr

/-- Idle reset written at the end of handleArrival: state idle,
targetFloor 0, direction null, isMoving false. -/
def idleReset (e : Elevator) : Elevator :=
  { e with
    state := EState.idle, targetFloor := some 0,
    direction := none, isMoving := false }

/-- The four writes handleArrival persists, in order: the three door
phases (each changing only the state field) and the idle reset.  The
isMoving flag and direction are untouched until the final reset. -/
def doorCycleWrites (e : Elevator) : List Elevator :=
  [{ e with state := EState.doors_opening },
   { e with state := EState.doors_open },
   { e with state := EState.doors_closing },
   idleReset e]

/-- The four events handleArrival logs, in order. -/
def doorCycleEvents (e : Elevator) : List EventRec :=
  [⟨EventKind.doors_opening, e.currentFloor, e.currentFloor, "Doors opening"⟩,
   ⟨EventKind.doors_open, e.currentFloor, e.currentFloor, "Doors open"⟩,
   ⟨EventKind.doors_closing, e.currentFloor, e.currentFloor, "Doors closing"⟩,
   ⟨EventKind.elevator_idle, e.currentFloor, e.currentFloor, "Elevator idle"⟩]

/-- Queue-continuation write after a door cycle when more stops remain:
next target from the queue head, direction recomputed, state left idle
and isMoving false; the engine then restarts without a new call. -/
def continuationWrite (e : Elevator) (t2 : Int) : Elevator :=
  { idleReset e with
    targetFloor := some t2,
    direction := some (if e.currentFloor < t2 then Dir.up else Dir.down),
    state := EState.idle, isMoving := false }

/-- Forced-idle write of the floor-boundary branch: the car does not
move; state idle, isMoving false, direction null, targetFloor 1. -/
def boundaryWrite (e : Elevator) : Elevator :=
  { e with
    state := EState.idle, isMoving := false,
    direction := none, targetFloor := some 1 }

/-- One-floor movement write: new floor, moving state matching the
direction (a null direction moves down, as in the source's ternary),
isMoving true. -/
def moveWrite (e : Elevator) (nf : Int) : Elevator :=
  { e with
    currentFloor := nf,
    state := if e.direction = some Dir.up then EState.moving_up
             else EState.moving_down,
    isMoving := true }

/-- One invocation of moveElevator of the queue-based service.  A
falsy target stops the chain.  Arrival at the target runs handleArrival
(the four doorCycleWrites), after which the served floor is shifted
off the queue; a non-empty remainder gets a continuation write and
restarts immediately.  Otherwise the car moves one floor in its
direction, unless that would leave the building, in which case the
boundary write is persisted and the chain stops. -/
def tick (cfg : BuildingConfig) (s : UnitState) : TickOut :=
  let e := s.e
  if isFalsyTarget e.targetFloor then
    ⟨[], [], s, false⟩
  else
    let t : Int := e.targetFloor.getD 0
    if e.currentFloor = t then
      let ws : List UnitState := (doorCycleWrites e).map (fun x => ⟨x, s.queue⟩)
      match s.queue.tail with
      | [] =>
        ⟨ws, doorCycleEvents e, ⟨idleReset e, []⟩, false⟩
      | t2 :: r2 =>
        let a5 : Elevator := continuationWrite e t2
        ⟨ws ++ [⟨a5, t2 :: r2⟩], doorCycleEvents e, ⟨a5, t2 :: r2⟩, true⟩
    else
      let nf : Int :=
        if e.direction = some Dir.up then e.currentFloor + 1 else e.currentFloor - 1
      if nf < 1 ∨ nf > cfg.totalFloors then
        ⟨[⟨boundaryWrite e, s.queue⟩],
         [⟨EventKind.elevator_idle, e.currentFloor, e.currentFloor,
           "Elevator stopped at invalid floor boundary"⟩],
         ⟨boundaryWrite e, s.queue⟩, false⟩
      else
        ⟨[⟨moveWrite e nf, s.queue⟩],
         [⟨EventKind.floor_reached,
           (if e.direction = some Dir.up then nf - 1 else nf + 1), nf,
           "Elevator moved"⟩],
         ⟨moveWrite e nf, s.queue⟩, true⟩

/-- Per-unit effect of an accepted call in callElevator of the
queue-based service: push the pickup floor when the unit is not
already there, always push the destination, then point targetFloor at
the queue head and recompute the direction from the current floor. -/
def callWrite (s : UnitState) (fromFloor toFloor : Int) : UnitState :=
  let q2 : List Int :=
    s.queue ++ (if s.e.currentFloor ≠ fromFloor then [fromFloor] else []) ++ [toFloor]
  let t : Int := q2.headD 0
  ⟨{ s.e with
    targetFloor := some t,
    direction := some (if s.e.currentFloor < t then Dir.up else Dir.down) }, q2⟩

/-- Iterate engine invocations while a further one is pending,
accumulating all persisted writes and logged events; the fuel bounds
the number of invocations. -/
def run (cfg : BuildingConfig) : Nat → UnitState → List UnitState × List EventRec
  | 0, _ => ([], [])
  | n + 1, s =>
    let o := tick cfg s
    if o.again then
      let r := run cfg n o.final
      (o.writes ++ r.1, o.events ++ r.2)
    else
      (o.writes, o.events)

/-- Number of engine invocations needed to serve a queue from a given
floor: one move per floor of distance plus one arrival invocation per
queue entry. -/
def ticksNeeded (cf : Int) : List Int → Nat
  | [] => 0
  | t :: rest => (cf - t).natAbs + 1 + ticksNeeded t rest

/-- Floors at which a door cycle was run, in order, read off the
doors_opening events of a log. -/
def visitedFloors (evs : List EventRec) : List Int :=
  (evs.filter (fun r => r.event == EventKind.doors_opening)).map (fun r => r.toFloor)

/-- Consistency between the redundant state and isMoving fields that
the engine actually maintains: a moving state implies the flag is set,
and the idle state implies it is clear.  Door-phase states constrain
nothing. -/
def StateConsistent (e : Elevator) : Prop :=
  ((e.state = EState.moving_up ∨ e.state = EState.moving_down) → e.isMoving = true) ∧
  (e.state = EState.idle → e.isMoving = false)

/-- Relation between targetFloor, direction and the queue required at
engine-invocation boundaries: an empty queue has a falsy target, and a
non-empty queue has the head as target with the direction oriented
toward it. -/
def TargetInv (e : Elevator) : List Int → Prop
  | [] => e.targetFloor = none ∨ e.targetFloor = some 0
  | t :: _ =>
    e.targetFloor = some t ∧
    ((e.direction = some Dir.up ∧ e.currentFloor ≤ t) ∨
     (e.direction = some Dir.down ∧ t ≤ e.currentFloor))

instance (e : Elevator) : ∀ q : List Int, Decidable (TargetInv e q)
  | [] => inferInstanceAs (Decidable (_ ∨ _))
  | _ :: _ => inferInstanceAs (Decidable (_ ∧ _))

/-- Engine invariant at invocation boundaries: current floor in range,
queue entries in range, and the target relation. -/
def EngineInv (cfg : BuildingConfig) (s : UnitState) : Prop :=
  (1 ≤ s.e.currentFloor ∧ s.e.currentFloor ≤ cfg.totalFloors) ∧
  (∀ f ∈ s.queue, 1 ≤ f ∧ f ≤ cfg.totalFloors) ∧
  TargetInv s.e s.queue

instance (cfg : BuildingConfig) (s : UnitState) : Decidable (EngineInv cfg s) :=
  inferInstanceAs (Decidable (_ ∧ _))

/-- Fleet-initialization state of one unit as seeded by the database
layer: floor 1, idle, no target, no direction, not moving. -/
def initElevator (i : String) : Elevator :=
  ⟨i, 1, none, none, EState.idle, false⟩

/-- Engine-boundary states of one unit reachable through validated
calls and engine invocations from the seeded state.  Calls are applied
at invocation boundaries. -/
inductive Reach (cfg : BuildingConfig) : UnitState → Prop where
  | init (i : String) : Reach cfg ⟨initElevator i, []⟩
  | call {s : UnitState} (fromFloor toFloor : Int) :
      Reach cfg s →
      1 ≤ fromFloor → fromFloor ≤ cfg.totalFloors →
      1 ≤ toFloor → toFloor ≤ cfg.totalFloors →
      fromFloor ≠ toFloor →
      Reach cfg (callWrite s fromFloor toFloor)
  | tickStep {s : UnitState} : Reach cfg s → Reach cfg (tick cfg s).final

/-- States the service persists for a unit: every reachable boundary
state (the seeded row, call writes and each invocation's last write)
together with the intermediate writes of a single invocation (the
door-cycle writes in particular). -/
inductive Persisted (cfg : BuildingConfig) : UnitState → Prop where
  | reach {s : UnitState} : Reach cfg s → Persisted cfg s
  | midTick {s w : UnitState} :
      Reach cfg s → w ∈ (tick cfg s).writes → Persisted cfg w

/-- Failure modes of callElevator: the two validation errors thrown
before any state change, and the failure on an empty fleet (in the
source an index into an empty array throws at selection time). -/
inductive CallError where
  | invalidFloor
  | sameFloor
  | noElevator
deriving DecidableEq, Repr

/-- Service-level state: the fleet rows in iteration order and the
per-unit floor queues map. -/
structure SysState where
  fleet : List Elevator
  queues : List (String × List Int)
deriving DecidableEq, Repr

/-- Lookup of a unit's floor queue, empty when absent (the service
initializes a missing entry to an empty array). -/
def lookupQueue (qs : List (String × List Int)) (i : String) : List Int :=
  match qs.find? (fun p => p.1 == i) with
  | some p => p.2
  | none => []

/-- Store a unit's floor queue in the map. -/
def setQueue (qs : List (String × List Int)) (i : String) (q : List Int) :
    List (String × List Int) :=
  match qs with
  | [] => [(i, q)]
  | p :: rest => if p.1 == i then (i, q) :: rest else p :: setQueue rest i q

/-- Replace the row of the given unit in the fleet (db.updateElevator
updates by id). -/
def updateFleet (fleet : List Elevator) (e2 : Elevator) : List Elevator :=
  fleet.map (fun x => if x.id == e2.id then e2 else x)

/-- callElevator of the queue-based service.  Floor validation comes
first and throws with no state change; then the dispatch selector
picks a unit, its queue gets the new legs, targetFloor and direction
are written, and the advisory estimate for the chosen unit is
computed from its floor at acceptance time.  The asynchronous movement
start is modelled separately by tick. -/
def callElevator (cfg : BuildingConfig) (s : SysState) (fromFloor toFloor : Int) :
    SysState × Except CallError (String × ℚ) :=
  if fromFloor < 1 ∨ fromFloor > cfg.totalFloors ∨
     toFloor < 1 ∨ toFloor > cfg.totalFloors then
    (s, Except.error CallError.invalidFloor)
  else if fromFloor = toFloor then
    (s, Except.error CallError.sameFloor)
  else
    match findBestElevator s.fleet fromFloor with
    | none => (s, Except.error CallError.noElevator)
    | some best =>
      let q := lookupQueue s.queues best.id
      let q2 : List Int :=
        q ++ (if best.currentFloor ≠ fromFloor then [fromFloor] else []) ++ [toFloor]
      let t : Int := q2.headD 0
      let best2 : Elevator :=
        { best with
          targetFloor := some t,
          direction := some (if best.currentFloor < t then Dir.up else Dir.down) }
      ({ fleet := updateFleet s.fleet best2, queues := setQueue s.queues best.id q2 },
       Except.ok (best.id, calculateEstimatedTime best fromFloor toFloor cfg))

theorem tick_stop (cfg : BuildingConfig) (s : UnitState)
    (h : isFalsyTarget s.e.targetFloor = true) :
    tick cfg s = ⟨[], [], s, false⟩ := by
  simp [tick, h]

theorem tick_arrival_last (cfg : BuildingConfig) (s : UnitState) (t : Int)
    (ht : s.e.targetFloor = some t) (ht0 : ¬ t = 0)
    (hc : s.e.currentFloor = t) (hq : s.queue.tail = []) :
    tick cfg s = ⟨(doorCycleWrites s.e).map (fun x => ⟨x, s.queue⟩),
                  doorCycleEvents s.e, ⟨idleReset s.e, []⟩, false⟩ := by
  simp [tick, isFalsyTarget, ht, ht0, hc, hq]

theorem tick_arrival_cont (cfg : BuildingConfig) (s : UnitState) (t t2 : Int)
    (r2 : List Int)
    (ht : s.e.targetFloor = some t) (ht0 : ¬ t = 0)
    (hc : s.e.currentFloor = t) (hq : s.queue.tail = t2 :: r2) :
    tick cfg s = ⟨(doorCycleWrites s.e).map (fun x => ⟨x, s.queue⟩)
                    ++ [⟨continuationWrite s.e t2, t2 :: r2⟩],
                  doorCycleEvents s.e, ⟨continuationWrite s.e t2, t2 :: r2⟩, true⟩ := by
  simp [tick, isFalsyTarget, ht, ht0, hc, hq]

theorem tick_boundary (cfg : BuildingConfig) (s : UnitState) (t : Int)
    (ht : s.e.targetFloor = some t) (ht0 : ¬ t = 0)
    (hc : ¬ s.e.currentFloor = t)
    (hb : (if s.e.direction = some Dir.up then s.e.currentFloor + 1
           else s.e.currentFloor - 1) < 1 ∨
          (if s.e.direction = some Dir.up then s.e.currentFloor + 1
           else s.e.currentFloor - 1) > cfg.totalFloors) :
    tick cfg s = ⟨[⟨boundaryWrite s.e, s.queue⟩],
                  [⟨EventKind.elevator_idle, s.e.currentFloor, s.e.currentFloor,
                    "Elevator stopped at invalid floor boundary"⟩],
                  ⟨boundaryWrite s.e, s.queue⟩, false⟩ := by
  simp [tick, isFalsyTarget, ht, ht0, hc, hb]

theorem tick_move (cfg : BuildingConfig) (s : UnitState) (t : Int)
    (ht : s.e.targetFloor = some t) (ht0 : ¬ t = 0)
    (hc : ¬ s.e.currentFloor = t)
    (hb : ¬ ((if s.e.direction = some Dir.up then s.e.currentFloor + 1
              else s.e.currentFloor - 1) < 1 ∨
             (if s.e.direction = some Dir.up then s.e.currentFloor + 1
              else s.e.currentFloor - 1) > cfg.totalFloors)) :
    tick cfg s =
      ⟨[⟨moveWrite s.e (if s.e.direction = some Dir.up then s.e.currentFloor + 1
                        else s.e.currentFloor - 1), s.queue⟩],
        [⟨EventKind.floor_reached,
          (if s.e.direction = some Dir.up
           then (if s.e.direction = some Dir.up then s.e.currentFloor + 1
                 else s.e.currentFloor - 1) - 1
           else (if s.e.direction = some Dir.up then s.e.currentFloor + 1
                 else s.e.currentFloor - 1) + 1),
          (if s.e.direction = some Dir.up then s.e.currentFloor + 1
           else s.e.currentFloor - 1), "Elevator moved"⟩],
        ⟨moveWrite s.e (if s.e.direction = some Dir.up then s.e.currentFloor + 1
                        else s.e.currentFloor - 1), s.queue⟩, true⟩ := by
  simp only [tick, isFalsyTarget, ht, ht0, hc, hb]
  simp [ht0, hc, hb]

theorem nonFalsy_target (o : Option Int) (h : ¬ isFalsyTarget o = true) :
    ∃ t : Int, o = some t ∧ ¬ t = 0 := by
  cases o with
  | none => simp [isFalsyTarget] at h
  | some t => exact ⟨t, rfl, by simpa [isFalsyTarget] using h⟩

theorem stateConsistent_doorCycle (e : Elevator) :
    ∀ w ∈ doorCycleWrites e, StateConsistent w := by
  intro w hw
  simp only [doorCycleWrites, List.mem_cons, List.not_mem_nil, or_false] at hw
  rcases hw with rfl | rfl | rfl | rfl
  · exact ⟨by intro h; rcases h with h | h <;> simp at h, by intro h; simp at h⟩
  · exact ⟨by intro h; rcases h with h | h <;> simp at h, by intro h; simp at h⟩
  · exact ⟨by intro h; rcases h with h | h <;> simp at h, by intro h; simp at h⟩
  · exact ⟨by intro h; rcases h with h | h <;> simp [idleReset] at h, fun _ => rfl⟩

theorem stateConsistent_continuation (e : Elevator) (t2 : Int) :
    StateConsistent (continuationWrite e t2) :=
  ⟨by intro h; rcases h with h | h <;> simp [continuationWrite] at h, fun _ => rfl⟩

theorem stateConsistent_boundary (e : Elevator) :
    StateConsistent (boundaryWrite e) :=
  ⟨by intro h; rcases h with h | h <;> simp [boundaryWrite] at h, fun _ => rfl⟩

theorem stateConsistent_moveWrite (e : Elevator) (nf : Int) :
    StateConsistent (moveWrite e nf) := by
  refine ⟨fun _ => rfl, fun h => ?_⟩
  by_cases hd : e.direction = some Dir.up <;> simp [moveWrite, hd] at h

theorem tick_writes_consistent (cfg : BuildingConfig) (s : UnitState) :
    ∀ w ∈ (tick cfg s).writes, StateConsistent w.e := by
  intro w hw
  by_cases h1 : isFalsyTarget s.e.targetFloor = true
  · rw [tick_stop cfg s h1] at hw; simp at hw
  · obtain ⟨t, ht, ht0⟩ := nonFalsy_target _ h1
    by_cases hc : s.e.currentFloor = t
    · cases hq : s.queue.tail with
      | nil =>
        rw [tick_arrival_last cfg s t ht ht0 hc hq] at hw
        simp only [List.mem_map] at hw
        obtain ⟨x, hx, hw2⟩ := hw
        rw [← hw2]
        exact stateConsistent_doorCycle s.e x hx
      | cons t2 r2 =>
        rw [tick_arrival_cont cfg s t t2 r2 ht ht0 hc hq] at hw
        simp only [List.mem_append, List.mem_map, List.mem_cons, List.not_mem_nil,
          or_false] at hw
        rcases hw with ⟨x, hx, hw2⟩ | rfl
        · rw [← hw2]
          exact stateConsistent_doorCycle s.e x hx
        · exact stateConsistent_continuation s.e t2
    · by_cases hb : (if s.e.direction = some Dir.up then s.e.currentFloor + 1
                     else s.e.currentFloor - 1) < 1 ∨
                    (if s.e.direction = some Dir.up then s.e.currentFloor + 1
                     else s.e.currentFloor - 1) > cfg.totalFloors
      · rw [tick_boundary cfg s t ht ht0 hc hb] at hw
        simp only [List.mem_cons, List.not_mem_nil, or_false] at hw
        rw [hw]
        exact stateConsistent_boundary s.e
      · rw [tick_move cfg s t ht ht0 hc hb] at hw
        simp only [List.mem_cons, List.not_mem_nil, or_false] at hw
        rw [hw]
        exact stateConsistent_moveWrite s.e _

theorem tick_final_consistent (cfg : BuildingConfig) (s : UnitState)
    (h : StateConsistent s.e) : StateConsistent (tick cfg s).final.e := by
  by_cases h1 : isFalsyTarget s.e.targetFloor = true
  · rw [tick_stop cfg s h1]; exact h
  · obtain ⟨t, ht, ht0⟩ := nonFalsy_target _ h1
    by_cases hc : s.e.currentFloor = t
    · cases hq : s.queue.tail with
      | nil =>
        rw [tick_arrival_last cfg s t ht ht0 hc hq]
        exact ⟨by intro h2; rcases h2 with h2 | h2 <;> simp [idleReset] at h2, fun _ => rfl⟩
      | cons t2 r2 =>
        rw [tick_arrival_cont cfg s t t2 r2 ht ht0 hc hq]
        exact stateConsistent_continuation s.e t2
    · by_cases hb : (if s.e.direction = some Dir.up then s.e.currentFloor + 1
                     else s.e.currentFloor - 1) < 1 ∨
                    (if s.e.direction = some Dir.up then s.e.currentFloor + 1
                     else s.e.currentFloor - 1) > cfg.totalFloors
      · rw [tick_boundary cfg s t ht ht0 hc hb]
        exact stateConsistent_boundary s.e
      · rw [tick_move cfg s t ht ht0 hc hb]
        exact stateConsistent_moveWrite s.e _

theorem callWrite_consistent (s : UnitState) (fromFloor toFloor : Int)
    (h : StateConsistent s.e) : StateConsistent (callWrite s fromFloor toFloor).e := by
  simpa [callWrite, StateConsistent] using h

theorem reach_consistent (cfg : BuildingConfig) {s : UnitState}
    (h : Reach cfg s) : StateConsistent s.e := by
  induction h with
  | init i =>
    exact ⟨by intro h2; rcases h2 with h2 | h2 <;> simp [initElevator] at h2, fun _ => rfl⟩
  | call fromFloor toFloor hr h1 h2 h3 h4 h5 ih =>
    exact callWrite_consistent _ fromFloor toFloor ih
  | tickStep hr ih =>
    exact tick_final_consistent cfg _ ih

theorem persisted_consistent (cfg : BuildingConfig) {s : UnitState}
    (h : Persisted cfg s) : StateConsistent s.e := by
  cases h with
  | reach hr => exact reach_consistent cfg hr
  | midTick hr hw => exact tick_writes_consistent cfg _ _ hw

/-- Condition under which one invocation takes the floor-boundary
branch: a live target not yet reached, and one step in the current
direction leaves [1, totalFloors]. -/
def boundaryBreach (cfg : BuildingConfig) (s : UnitState) : Prop :=
  ¬ isFalsyTarget s.e.targetFloor = true ∧
  ¬ s.e.currentFloor = s.e.targetFloor.getD 0 ∧
  ((if s.e.direction = some Dir.up then s.e.currentFloor + 1
    else s.e.currentFloor - 1) < 1 ∨
   (if s.e.direction = some Dir.up then s.e.currentFloor + 1
    else s.e.currentFloor - 1) > cfg.totalFloors)

theorem engineInv_queue_shape (cfg : BuildingConfig) (s : UnitState)
    (h : EngineInv cfg s) (t : Int) (ht : s.e.targetFloor = some t) (ht0 : ¬ t = 0) :
    ∃ rest : List Int, s.queue = t :: rest := by
  obtain ⟨_, _, htinv⟩ := h
  cases hqe : s.queue with
  | nil =>
    rw [hqe] at htinv
    rcases htinv with h2 | h2 <;> rw [ht] at h2
    · exact absurd h2 (by simp)
    · exact absurd (by injection h2) ht0
  | cons t1 rest =>
    rw [hqe] at htinv
    obtain ⟨htf, _⟩ := htinv
    rw [ht] at htf
    have : t = t1 := by injection htf
    exact ⟨rest, by rw [this]⟩

theorem engineInv_no_breach (cfg : BuildingConfig) (s : UnitState)
    (h : EngineInv cfg s) : ¬ boundaryBreach cfg s := by
  rintro ⟨h1, hc, hb⟩
  obtain ⟨t, ht, ht0⟩ := nonFalsy_target _ h1
  obtain ⟨rest, hqe⟩ := engineInv_queue_shape cfg s h t ht ht0
  obtain ⟨⟨hcf1, hcf2⟩, hqb, htinv⟩ := h
  rw [hqe] at htinv hqb
  obtain ⟨_, hdir⟩ := htinv
  rw [ht] at hc
  simp only [Option.getD_some] at hc
  have htb := hqb t (by simp)
  rcases hdir with ⟨hup, hle⟩ | ⟨hdn, hge⟩
  · rw [if_pos hup] at hb
    omega
  · have hnup : ¬ s.e.direction = some Dir.up := by rw [hdn]; simp
    rw [if_neg hnup] at hb
    omega

theorem targetInv_callWrite (s : UnitState) (f t : Int) :
    TargetInv (callWrite s f t).e (callWrite s f t).queue := by
  have htf : (callWrite s f t).e.targetFloor
      = some ((callWrite s f t).queue.headD 0) := rfl
  have hdir : (callWrite s f t).e.direction
      = some (if s.e.currentFloor < (callWrite s f t).queue.headD 0
              then Dir.up else Dir.down) := rfl
  have hcf : (callWrite s f t).e.currentFloor = s.e.currentFloor := rfl
  cases hq : (callWrite s f t).queue with
  | nil =>
    exfalso
    have hne : (callWrite s f t).queue ≠ [] := by simp [callWrite]
    exact hne hq
  | cons h0 rest =>
    rw [hq] at htf hdir
    simp only [List.headD_cons] at htf hdir
    refine ⟨htf, ?_⟩
    by_cases hlt : s.e.currentFloor < h0
    · exact Or.inl ⟨by rw [hdir]; simp [hlt], by rw [hcf]; exact le_of_lt hlt⟩
    · exact Or.inr ⟨by rw [hdir]; simp [hlt], by rw [hcf]; exact not_lt.mp hlt⟩

theorem engineInv_callWrite (cfg : BuildingConfig) (s : UnitState) (f t : Int)
    (h : EngineInv cfg s) (hf1 : 1 ≤ f) (hf2 : f ≤ cfg.totalFloors)
    (ht1 : 1 ≤ t) (ht2 : t ≤ cfg.totalFloors) :
    EngineInv cfg (callWrite s f t) := by
  obtain ⟨hcf, hqb, _⟩ := h
  refine ⟨hcf, ?_, targetInv_callWrite s f t⟩
  intro x hx
  have hq2 : (callWrite s f t).queue =
      s.queue ++ (if s.e.currentFloor ≠ f then [f] else []) ++ [t] := rfl
  rw [hq2] at hx
  simp only [List.mem_append, List.mem_singleton] at hx
  rcases hx with (hx | hx) | hx
  · exact hqb x hx
  · by_cases hc : s.e.currentFloor ≠ f
    · simp only [if_pos hc, List.mem_singleton] at hx
      exact hx ▸ ⟨hf1, hf2⟩
    · simp only [if_neg hc, List.not_mem_nil] at hx
  · exact hx ▸ ⟨ht1, ht2⟩

theorem engineInv_tick (cfg : BuildingConfig) (s : UnitState) (h : EngineInv cfg s) :
    EngineInv cfg (tick cfg s).final := by
  by_cases h1 : isFalsyTarget s.e.targetFloor = true
  · rw [tick_stop cfg s h1]; exact h
  · obtain ⟨t, ht, ht0⟩ := nonFalsy_target _ h1
    obtain ⟨rest, hqe⟩ := engineInv_queue_shape cfg s h t ht ht0
    obtain ⟨⟨hcf1, hcf2⟩, hqb, htinv⟩ := h
    rw [hqe] at htinv hqb
    obtain ⟨htf, hdir⟩ := htinv
    have htb : 1 ≤ t ∧ t ≤ cfg.totalFloors := hqb t (by simp)
    by_cases hc : s.e.currentFloor = t
    · have hqt : s.queue.tail = rest := by rw [hqe]; rfl
      cases hr : rest with
      | nil =>
        rw [hr] at hqt
        rw [tick_arrival_last cfg s t ht ht0 hc hqt]
        exact ⟨⟨hcf1, hcf2⟩, by simp, Or.inr rfl⟩
      | cons t2 r2 =>
        rw [hr] at hqt hqb
        rw [tick_arrival_cont cfg s t t2 r2 ht ht0 hc hqt]
        have hcw : (continuationWrite s.e t2).currentFloor = s.e.currentFloor := rfl
        refine ⟨⟨hcf1, hcf2⟩, ?_, ?_⟩
        · intro x hx
          exact hqb x (by simp [hx])
        · refine ⟨rfl, ?_⟩
          by_cases hlt : s.e.currentFloor < t2
          · exact Or.inl ⟨by simp [continuationWrite, hlt], by rw [hcw]; exact le_of_lt hlt⟩
          · exact Or.inr ⟨by simp [continuationWrite, hlt], by rw [hcw]; exact not_lt.mp hlt⟩
    · have hnb : ¬ boundaryBreach cfg s :=
        engineInv_no_breach cfg s
          ⟨⟨hcf1, hcf2⟩, by rw [hqe]; exact hqb, by rw [hqe]; exact ⟨htf, hdir⟩⟩
      have hc2 : ¬ s.e.currentFloor = s.e.targetFloor.getD 0 := by
        rw [ht]; simpa using hc
      have hb : ¬ ((if s.e.direction = some Dir.up then s.e.currentFloor + 1
                    else s.e.currentFloor - 1) < 1 ∨
                   (if s.e.direction = some Dir.up then s.e.currentFloor + 1
                    else s.e.currentFloor - 1) > cfg.totalFloors) :=
        fun hb2 => hnb ⟨h1, hc2, hb2⟩
      rw [tick_move cfg s t ht ht0 hc hb]
      push_neg at hb
      have hmcf : (moveWrite s.e (if s.e.direction = some Dir.up then s.e.currentFloor + 1
          else s.e.currentFloor - 1)).currentFloor
          = (if s.e.direction = some Dir.up then s.e.currentFloor + 1
             else s.e.currentFloor - 1) := rfl
      refine ⟨⟨by rw [hmcf]; exact hb.1, by rw [hmcf]; exact hb.2⟩, ?_, ?_⟩
      · intro x hx
        rw [hqe] at hx
        exact hqb x hx
      · rw [hqe]
        refine ⟨htf, ?_⟩
        rcases hdir with ⟨hup, hle⟩ | ⟨hdn, hge⟩
        · refine Or.inl ⟨hup, ?_⟩
          rw [hmcf, if_pos hup]
          omega
        · have hnup : ¬ s.e.direction = some Dir.up := by rw [hdn]; simp
          refine Or.inr ⟨hdn, ?_⟩
          rw [hmcf, if_neg hnup]
          omega

theorem reach_engineInv (cfg : BuildingConfig) (hN : 1 ≤ cfg.totalFloors)
    {s : UnitState} (h : Reach cfg s) : EngineInv cfg s := by
  induction h with
  | init i => exact ⟨⟨le_refl 1, hN⟩, by simp, Or.inl rfl⟩
  | call fromFloor toFloor hr hf1 hf2 ht1 ht2 hne ih =>
    exact engineInv_callWrite cfg _ fromFloor toFloor ih hf1 hf2 ht1 ht2
  | tickStep hr ih => exact engineInv_tick cfg _ ih

theorem visitedFloors_append (a b : List EventRec) :
    visitedFloors (a ++ b) = visitedFloors a ++ visitedFloors b := by
  simp [visitedFloors]

theorem visitedFloors_doorCycle (e : Elevator) :
    visitedFloors (doorCycleEvents e) = [e.currentFloor] := rfl

theorem run_succ_again (cfg : BuildingConfig) (n : Nat) (s : UnitState)
    (h : (tick cfg s).again = true) :
    run cfg (n + 1) s = ((tick cfg s).writes ++ (run cfg n (tick cfg s).final).1,
                         (tick cfg s).events ++ (run cfg n (tick cfg s).final).2) := by
  simp [run, h]

theorem run_succ_stop (cfg : BuildingConfig) (n : Nat) (s : UnitState)
    (h : (tick cfg s).again = false) :
    run cfg (n + 1) s = ((tick cfg s).writes, (tick cfg s).events) := by
  simp [run, h]

theorem run_fifo (cfg : BuildingConfig) :
    ∀ (fuel : Nat) (s : UnitState), EngineInv cfg s →
    ticksNeeded s.e.currentFloor s.queue ≤ fuel →
    visitedFloors (run cfg fuel s).2 = s.queue := by
  intro fuel
  induction fuel with
  | zero =>
    intro s hinv hfuel
    cases hq : s.queue with
    | nil => simp [run, visitedFloors, hq]
    | cons t rest =>
      rw [hq] at hfuel
      simp [ticksNeeded] at hfuel
  | succ n ih =>
    intro s hinv hfuel
    by_cases h1 : isFalsyTarget s.e.targetFloor = true
    · cases hq : s.queue with
      | nil =>
        simp [run, tick_stop cfg s h1, visitedFloors]
      | cons t rest =>
        exfalso
        obtain ⟨_, hqb, htinv⟩ := hinv
        rw [hq] at htinv
        obtain ⟨htf, _⟩ := htinv
        rw [htf] at h1
        have htb := hqb t (by rw [hq]; simp)
        simp only [isFalsyTarget, beq_iff_eq] at h1
        omega
    · obtain ⟨t, ht, ht0⟩ := nonFalsy_target _ h1
      obtain ⟨rest, hqe⟩ := engineInv_queue_shape cfg s hinv t ht ht0
      by_cases hc : s.e.currentFloor = t
      · have hqt : s.queue.tail = rest := by rw [hqe]; rfl
        cases hr : rest with
        | nil =>
          rw [hr] at hqt
          have htick := tick_arrival_last cfg s t ht ht0 hc hqt
          rw [hqe, hr]
          simp [run, htick, visitedFloors_doorCycle, hc]
        | cons t2 r2 =>
          rw [hr] at hqt
          have htick := tick_arrival_cont cfg s t t2 r2 ht ht0 hc hqt
          have hfin : (tick cfg s).final = ⟨continuationWrite s.e t2, t2 :: r2⟩ := by
            rw [htick]
          have hinv2 : EngineInv cfg (⟨continuationWrite s.e t2, t2 :: r2⟩ : UnitState) := by
            rw [← hfin]
            exact engineInv_tick cfg s hinv
          have hcw : (continuationWrite s.e t2).currentFloor = s.e.currentFloor := rfl
          have hfuel2 : ticksNeeded (continuationWrite s.e t2).currentFloor (t2 :: r2) ≤ n := by
            rw [hqe, hr] at hfuel
            rw [hcw, hc]
            simp only [ticksNeeded] at hfuel ⊢
            omega
          have hrec := ih (⟨continuationWrite s.e t2, t2 :: r2⟩ : UnitState) hinv2 hfuel2
          rw [hqe]
          simp only [run, htick]
          simp [visitedFloors_append, visitedFloors_doorCycle, hrec, hc, hr]
      · have hnb : ¬ boundaryBreach cfg s := engineInv_no_breach cfg s hinv
        have hc2 : ¬ s.e.currentFloor = s.e.targetFloor.getD 0 := by
          rw [ht]; simpa using hc
        have hb : ¬ ((if s.e.direction = some Dir.up then s.e.currentFloor + 1
                      else s.e.currentFloor - 1) < 1 ∨
                     (if s.e.direction = some Dir.up then s.e.currentFloor + 1
                      else s.e.currentFloor - 1) > cfg.totalFloors) :=
          fun hb2 => hnb ⟨h1, hc2, hb2⟩
        have htick := tick_move cfg s t ht ht0 hc hb
        have hfin : (tick cfg s).final
            = ⟨moveWrite s.e (if s.e.direction = some Dir.up then s.e.currentFloor + 1
                              else s.e.currentFloor - 1), s.queue⟩ := by
          rw [htick]
        have hinv2 : EngineInv cfg
            (⟨moveWrite s.e (if s.e.direction = some Dir.up then s.e.currentFloor + 1
                             else s.e.currentFloor - 1), s.queue⟩ : UnitState) := by
          rw [← hfin]
          exact engineInv_tick cfg s hinv
        have hmcf : (moveWrite s.e (if s.e.direction = some Dir.up then s.e.currentFloor + 1
            else s.e.currentFloor - 1)).currentFloor
            = (if s.e.direction = some Dir.up then s.e.currentFloor + 1
               else s.e.currentFloor - 1) := rfl
        have hdir : (s.e.direction = some Dir.up ∧ s.e.currentFloor ≤ t) ∨
            (s.e.direction = some Dir.down ∧ t ≤ s.e.currentFloor) := by
          obtain ⟨_, _, htinv⟩ := hinv
          rw [hqe] at htinv
          exact htinv.2
        have hfuel2 : ticksNeeded (moveWrite s.e
            (if s.e.direction = some Dir.up then s.e.currentFloor + 1
             else s.e.currentFloor - 1)).currentFloor s.queue ≤ n := by
          rw [hmcf, hqe]
          rw [hqe] at hfuel
          simp only [ticksNeeded] at hfuel ⊢
          rcases hdir with ⟨hup, hle⟩ | ⟨hdn, hge⟩
          · rw [if_pos hup]
            omega
          · have hnup : ¬ s.e.direction = some Dir.up := by rw [hdn]; simp
            rw [if_neg hnup]
            omega
        have hrec := ih _ hinv2 hfuel2
        rw [run_succ_again cfg n s (by rw [htick])]
        simp only [htick]
        rw [visitedFloors_append, hrec]
        simp [visitedFloors]

instance (cfg : BuildingConfig) (s : UnitState) : Decidable (boundaryBreach cfg s) :=
  inferInstanceAs (Decidable (_ ∧ _))

instance {ε α : Type} [DecidableEq ε] [DecidableEq α] : DecidableEq (Except ε α) :=
  fun a b =>
    match a, b with
    | Except.error x, Except.error y =>
      if h : x = y then Decidable.isTrue (by rw [h])
      else Decidable.isFalse (fun hc => h (by injection hc))
    | Except.error _, Except.ok _ => Decidable.isFalse (fun hc => Except.noConfusion hc)
    | Except.ok _, Except.error _ => Decidable.isFalse (fun hc => Except.noConfusion hc)
    | Except.ok x, Except.ok y =>
      if h : x = y then Decidable.isTrue (by rw [h])
      else Decidable.isFalse (fun hc => h (by injection hc))

theorem engineInv_qth (cfg : BuildingConfig) (s : UnitState) (h : EngineInv cfg s)
    (hne : s.queue ≠ []) : s.e.targetFloor = some (s.queue.headD 0) := by
  obtain ⟨_, _, htinv⟩ := h
  cases hq : s.queue with
  | nil => exact absurd hq hne
  | cons t rest =>
    rw [hq] at htinv
    simpa using htinv.1

theorem tick_writes_qth (cfg : BuildingConfig) (s : UnitState) (h : EngineInv cfg s) :
    ∀ w ∈ (tick cfg s).writes,
      ¬ (w.e.state = EState.idle ∧ w.e.targetFloor = some 0) →
      w.queue ≠ [] → w.e.targetFloor = some (w.queue.headD 0) := by
  intro w hw hex hne
  by_cases h1 : isFalsyTarget s.e.targetFloor = true
  · rw [tick_stop cfg s h1] at hw
    simp at hw
  · obtain ⟨t, ht, ht0⟩ := nonFalsy_target _ h1
    obtain ⟨rest, hqe⟩ := engineInv_queue_shape cfg s h t ht ht0
    by_cases hc : s.e.currentFloor = t
    · have hqt : s.queue.tail = rest := by rw [hqe]; rfl
      cases hr : rest with
      | nil =>
        rw [hr] at hqt
        rw [tick_arrival_last cfg s t ht ht0 hc hqt] at hw
        simp only [List.mem_map] at hw
        obtain ⟨x, hx, hw2⟩ := hw
        simp only [doorCycleWrites, List.mem_cons, List.not_mem_nil, or_false] at hx
        rcases hx with rfl | rfl | rfl | rfl
        · rw [← hw2, hqe]; simp [ht]
        · rw [← hw2, hqe]; simp [ht]
        · rw [← hw2, hqe]; simp [ht]
        · exfalso
          apply hex
          rw [← hw2]
          exact ⟨rfl, rfl⟩
      | cons t2 r2 =>
        rw [hr] at hqt
        rw [tick_arrival_cont cfg s t t2 r2 ht ht0 hc hqt] at hw
        simp only [List.mem_append, List.mem_map, List.mem_cons, List.not_mem_nil,
          or_false] at hw
        rcases hw with ⟨x, hx, hw2⟩ | rfl
        · simp only [doorCycleWrites, List.mem_cons, List.not_mem_nil, or_false] at hx
          rcases hx with rfl | rfl | rfl | rfl
          · rw [← hw2, hqe]; simp [ht]
          · rw [← hw2, hqe]; simp [ht]
          · rw [← hw2, hqe]; simp [ht]
          · exfalso
            apply hex
            rw [← hw2]
            exact ⟨rfl, rfl⟩
        · simp [continuationWrite]
    · have hnb : ¬ boundaryBreach cfg s := engineInv_no_breach cfg s h
      have hc2 : ¬ s.e.currentFloor = s.e.targetFloor.getD 0 := by
        rw [ht]; simpa using hc
      have hb : ¬ ((if s.e.direction = some Dir.up then s.e.currentFloor + 1
                    else s.e.currentFloor - 1) < 1 ∨
                   (if s.e.direction = some Dir.up then s.e.currentFloor + 1
                    else s.e.currentFloor - 1) > cfg.totalFloors) :=
        fun hb2 => hnb ⟨h1, hc2, hb2⟩
      rw [tick_move cfg s t ht ht0 hc hb] at hw
      simp only [List.mem_cons, List.not_mem_nil, or_false] at hw
      rw [hw, hqe]
      simp [ht, moveWrite]

namespace BaseSvc

/-- Scoring of one elevator in findBestElevator of
src/services/ElevatorService.ts, kept as its own transcription for the
duplicate-module comparison. -/
def score (e : Elevator) (fromFloor : Int) : Int :=
  let distance : Int := |e.currentFloor - fromFloor|
  let s1 : Int := distance * 10
  let s2 : Int := if e.state = EState.idle then s1 - 50 else s1
  if e.isMoving = true ∧ e.direction ≠ none then
    let isMovingTowards : Prop :=
      (e.direction = some Dir.up ∧ fromFloor > e.currentFloor) ∨
      (e.direction = some Dir.down ∧ fromFloor < e.currentFloor)
    if isMovingTowards then s2 - 20 else s2 + 30
  else s2

/-- Dispatch selector of src/services/ElevatorService.ts: score every
unit, stable-sort ascending, take element 0. -/
def findBestElevator (fleet : List Elevator) (fromFloor : Int) : Option Elevator :=
  let scored := fleet.map (fun e => (e, score e fromFloor))
  (sortByScore scored).head?.map (fun p => p.1)

/-- Advisory time estimate of src/services/ElevatorService.ts. -/
def calculateEstimatedTime (e : Elevator) (fromFloor toFloor : Int)
    (cfg : BuildingConfig) : ℚ :=
  let floorsToMove : Int := |e.currentFloor - fromFloor| + |fromFloor - toFloor|
  (floorsToMove : ℚ) * cfg.floorMoveTime + cfg.doorOpenCloseTime * 2

end BaseSvc

/-- Default building configuration of the repository: 10 floors, 5
seconds per floor, 2 seconds per door phase. -/
def cfg10 : BuildingConfig := ⟨10, 5, 2⟩

/-- Configuration of the worked estimate example: 1 second per floor,
half a second per door phase. -/
def cfgFast : BuildingConfig := ⟨10, 1, 1/2⟩

/-- Engine state reached from a freshly seeded unit by the call (1, 3)
followed by two movement invocations: the car sits at floor 3 with the
arrival invocation still pending. -/
def arrivalPending : UnitState :=
  (tick cfg10 (tick cfg10 (callWrite ⟨initElevator "elevator-1", []⟩ 1 3)).final).final

/-- Five-unit fleet as seeded by the database layer. -/
def initialFleet : List Elevator :=
  [initElevator "elevator-1", initElevator "elevator-2", initElevator "elevator-3",
   initElevator "elevator-4", initElevator "elevator-5"]

/-- Service state with the seeded fleet and no queues. -/
def sysInit : SysState := ⟨initialFleet, []⟩

/-- Two-unit fleet for dispatch examples: an idle car at floor 5 and
an idle car at floor 1. -/
def fleetPair : List Elevator :=
  [⟨"elevator-1", 5, none, none, EState.idle, false⟩,
   ⟨"elevator-2", 1, none, none, EState.idle, false⟩]

/-- Single-unit service state of the estimate example: one idle car at
floor 1. -/
def sysOne : SysState := ⟨[initElevator "elevator-1"], []⟩

/-- A unit at the top floor driving toward a target outside the
building: its next movement invocation hits the boundary branch.  Not
reachable through validated calls. -/
def breachState : UnitState :=
  ⟨⟨"elevator-1", 10, some 11, some Dir.up, EState.moving_up, true⟩, [11]⟩

/-- A moving unit used in the multi-call FIFO example: at floor 2,
driving up to floor 5 with that one stop queued. -/
def movingState : UnitState :=
  ⟨⟨"elevator-1", 2, some 5, some Dir.up, EState.moving_up, true⟩, [5]⟩

/-- A unit one movement invocation away from the final door cycle of
its journey: at its target floor 5 with the queue holding just that
floor. -/
def lastStop : UnitState :=
  ⟨⟨"elevator-4", 5, some 5, some Dir.up, EState.moving_up, true⟩, [5]⟩

theorem insertByScore_head (x : Elevator × Int) (l : List (Elevator × Int)) :
    (insertByScore x l).head? =
      some (match l.head? with
            | none => x
            | some y => if x.2 ≤ y.2 then x else y) := by
  cases l with
  | nil => rfl
  | cons y ys =>
    by_cases h : x.2 ≤ y.2
    · simp [insertByScore, h]
    · simp [insertByScore, h]

theorem sortByScore_head (l : List (Elevator × Int)) :
    (sortByScore l).head? = firstMin l := by
  induction l with
  | nil => rfl
  | cons x xs ih =>
    simp only [sortByScore, firstMin, insertByScore_head, ih]
    cases h : firstMin xs with
    | none => rfl
    | some y =>
      by_cases hle : x.2 ≤ y.2
      · simp [hle, not_lt.mpr hle]
      · simp [hle, lt_of_not_le hle]

theorem firstMin_map_spec (fromFloor : Int) :
    ∀ fleet : List Elevator, fleet ≠ [] →
    ∃ (b : Elevator) (fl1 fl2 : List Elevator),
      firstMin (fleet.map (fun e => (e, score e fromFloor)))
        = some (b, score b fromFloor) ∧
      fleet = fl1 ++ b :: fl2 ∧
      (∀ y ∈ fleet, score b fromFloor ≤ score y fromFloor) ∧
      (∀ y ∈ fl1, score b fromFloor < score y fromFloor) := by
  intro fleet
  induction fleet with
  | nil => intro h; exact absurd rfl h
  | cons e rest ih =>
    intro _
    by_cases hrnil : rest = []
    · subst hrnil
      refine ⟨e, [], [], ?_, by simp, ?_, by simp⟩
      · simp [firstMin]
      · intro y hy
        simp at hy
        subst hy
        exact le_refl _
    · obtain ⟨b, fl1, fl2, hb, hsplit, hmin, hfirst⟩ := ih hrnil
      by_cases hlt : score b fromFloor < score e fromFloor
      · refine ⟨b, e :: fl1, fl2, ?_, by simp [hsplit], ?_, ?_⟩
        · simp only [List.map_cons, firstMin, hb]
          simp [hlt]
        · intro y hy
          rcases List.mem_cons.mp hy with h | h
          · subst h; exact le_of_lt hlt
          · exact hmin y h
        · intro y hy
          rcases List.mem_cons.mp hy with h | h
          · subst h; exact hlt
          · exact hfirst y h
      · refine ⟨e, [], rest, ?_, by simp, ?_, by simp⟩
        · simp only [List.map_cons, firstMin, hb]
          simp [hlt]
        · intro y hy
          rcases List.mem_cons.mp hy with h | h
          · subst h; exact le_refl _
          · exact le_trans (not_lt.mp hlt) (hmin y h)

theorem findBestElevator_spec (fleet : List Elevator) (fromFloor : Int)
    (h : fleet ≠ []) :
    ∃ (b : Elevator) (fl1 fl2 : List Elevator),
      findBestElevator fleet fromFloor = some b ∧
      fleet = fl1 ++ b :: fl2 ∧
      (∀ y ∈ fleet, score b fromFloor ≤ score y fromFloor) ∧
      (∀ y ∈ fl1, score b fromFloor < score y fromFloor) := by
  obtain ⟨b, fl1, fl2, hb, hsplit, hmin, hfirst⟩ := firstMin_map_spec fromFloor fleet h
  exact ⟨b, fl1, fl2, by simp [findBestElevator, sortByScore_head, hb], hsplit, hmin, hfirst⟩

theorem findBestElevator_nil (fromFloor : Int) :
    findBestElevator [] fromFloor = none := rfl

/-- C1, counterexample: the claimed equivalence (isMoving true exactly
during moving_up/moving_down, hence false in every persisted door
phase) is false on the code: handleArrival's door-phase writes leave
isMoving untouched, so a unit that moved to its stop is persisted in
state doors_opening with isMoving still true and its queue non-empty. -/
theorem c1_counterexample :
    ¬ (∀ s : UnitState, Persisted cfg10 s →
        (s.e.isMoving = true ↔
          (s.e.state = EState.moving_up ∨ s.e.state = EState.moving_down))) := by
  intro hall
  have hreach : Reach cfg10 arrivalPending :=
    Reach.tickStep (Reach.tickStep (Reach.call 1 3 (Reach.init "elevator-1")
      (by decide) (by decide) (by decide) (by decide) (by decide)))
  have hmem : (⟨⟨"elevator-1", 3, some 3, some Dir.up, EState.doors_opening, true⟩,
      [3]⟩ : UnitState) ∈ (tick cfg10 arrivalPending).writes := by decide
  have hbad := (hall _ (Persisted.midTick hreach hmem)).mp rfl
  rcases hbad with h | h <;> exact absurd h (by decide)

/-- C1, amended: at every state the movement engine persists, a
moving_up or moving_down motionState implies isMoving = true, and the
idle motionState implies isMoving = false; in the door phases isMoving
merely retains its value from before the arrival, so it may remain
true while the stop queue is still non-empty. -/
theorem c1_isMoving_consistency (cfg : BuildingConfig) (s : UnitState)
    (h : Persisted cfg s) :
    ((s.e.state = EState.moving_up ∨ s.e.state = EState.moving_down) →
      s.e.isMoving = true) ∧
    (s.e.state = EState.idle → s.e.isMoving = false) :=
  persisted_consistent cfg h

/-- Witness for C1: the consistency implications evaluated at a
freshly seeded persisted unit. -/
theorem c1_isMoving_consistency_witness :
    (((initElevator "elevator-1").state = EState.moving_up ∨
      (initElevator "elevator-1").state = EState.moving_down) →
      (initElevator "elevator-1").isMoving = true) ∧
    ((initElevator "elevator-1").state = EState.idle →
      (initElevator "elevator-1").isMoving = false) :=
  c1_isMoving_consistency cfg10 ⟨initElevator "elevator-1", []⟩
    (Persisted.reach (Reach.init "elevator-1"))

/-- C2, counterexample: door-phase units do not always receive only
the distance term.  A unit persisted in state doors_open mid-cycle
still has isMoving = true and its travel direction, so the code gives
it the moving-toward adjustment: at floor 3 with pickup floor 5 its
score is 10 times 2 minus 20 = 0, not the bare distance term 20. -/
theorem c2_counterexample :
    ¬ (∀ s : UnitState, Persisted cfg10 s →
        (s.e.state = EState.doors_opening ∨ s.e.state = EState.doors_open ∨
         s.e.state = EState.doors_closing) →
        score s.e 5 = 10 * |s.e.currentFloor - 5|) := by
  intro hall
  have hreach : Reach cfg10 arrivalPending :=
    Reach.tickStep (Reach.tickStep (Reach.call 1 3 (Reach.init "elevator-1")
      (by decide) (by decide) (by decide) (by decide) (by decide)))
  have hmem : (⟨⟨"elevator-1", 3, some 3, some Dir.up, EState.doors_open, true⟩,
      [3]⟩ : UnitState) ∈ (tick cfg10 arrivalPending).writes := by decide
  have hbad := hall _ (Persisted.midTick hreach hmem) (by right; left; rfl)
  exact absurd hbad (by decide)

/-- C2, amended: for every non-empty fleet snapshot and pickup floor,
each unit's score is 10 times its distance to the pickup floor, minus
50 when its state is idle, and — whenever its isMoving flag is set with
a non-null direction, which includes units persisted mid-door-cycle —
minus 20 when directed toward the pickup floor and plus 30 otherwise;
door-phase units receive only the distance term exactly when their
isMoving flag is clear.  The selector returns the first unit in fleet
iteration order whose score is minimal. -/
theorem c2_dispatch (fleet : List Elevator) (fromFloor : Int) (h : fleet ≠ []) :
    (∀ e : Elevator, score e fromFloor =
        10 * |e.currentFloor - fromFloor|
        + (if e.state = EState.idle then -50 else 0)
        + (if e.isMoving = true ∧ e.direction ≠ none then
             (if (e.direction = some Dir.up ∧ fromFloor > e.currentFloor) ∨
                 (e.direction = some Dir.down ∧ fromFloor < e.currentFloor)
              then -20 else 30)
           else 0)) ∧
    (∃ (b : Elevator) (fl1 fl2 : List Elevator),
      findBestElevator fleet fromFloor = some b ∧
      fleet = fl1 ++ b :: fl2 ∧
      (∀ y ∈ fleet, score b fromFloor ≤ score y fromFloor) ∧
      (∀ y ∈ fl1, score b fromFloor < score y fromFloor)) := by
  constructor
  · intro e
    simp only [score]
    split_ifs <;> ring
  · exact findBestElevator_spec fleet fromFloor h

/-- Witness for C2: on the two-idle-unit fleet with pickup floor 1 the
selector picks the closer car and the first-minimal characterization
holds. -/
theorem c2_dispatch_witness :
    ∃ (b : Elevator) (fl1 fl2 : List Elevator),
      findBestElevator fleetPair 1 = some b ∧
      fleetPair = fl1 ++ b :: fl2 ∧
      (∀ y ∈ fleetPair, score b 1 ≤ score y 1) ∧
      (∀ y ∈ fl1, score b 1 < score y 1) :=
  (c2_dispatch fleetPair 1 (by decide)).2

/-- C3: callElevator validates before selection: an out-of-range floor
fails with the range validation error and an equal from/to pair fails
with the same-floor error, in both cases returning the service state
unchanged — for every service state, including one whose empty fleet
would make the selector itself fail, showing validation precedes any
scoring. -/
theorem c3_validation (cfg : BuildingConfig) (s : SysState) (fromFloor toFloor : Int) :
    ((fromFloor < 1 ∨ fromFloor > cfg.totalFloors ∨
      toFloor < 1 ∨ toFloor > cfg.totalFloors) →
      callElevator cfg s fromFloor toFloor = (s, Except.error CallError.invalidFloor)) ∧
    (¬ (fromFloor < 1 ∨ fromFloor > cfg.totalFloors ∨
        toFloor < 1 ∨ toFloor > cfg.totalFloors) →
      fromFloor = toFloor →
      callElevator cfg s fromFloor toFloor = (s, Except.error CallError.sameFloor)) := by
  constructor
  · intro h
    simp [callElevator, h]
  · intro h he
    subst he
    rw [callElevator, if_neg h, if_pos rfl]

/-- Witness for C3: floor 0 fails the range check and the pair (3, 3)
fails the same-floor check on the seeded service state, each leaving
the state unchanged. -/
theorem c3_validation_witness :
    callElevator cfg10 sysInit 0 5 = (sysInit, Except.error CallError.invalidFloor) ∧
    callElevator cfg10 sysInit 3 3 = (sysInit, Except.error CallError.sameFloor) :=
  ⟨(c3_validation cfg10 sysInit 0 5).1 (by decide),
   (c3_validation cfg10 sysInit 3 3).2 (by decide) rfl⟩

/-- C4: every accepted call returns the advisory estimate computed
from the chosen unit's floor at acceptance time: (|currentFloor −
pickup| + |pickup − dropoff|) × floorMoveTime + 2 × doorOpenCloseTime;
the unit's pre-existing queue does not enter the formula. -/
theorem c4_estimate (cfg : BuildingConfig) (s : SysState) (fromFloor toFloor : Int)
    (s2 : SysState) (i : String) (est : ℚ)
    (h : callElevator cfg s fromFloor toFloor = (s2, Except.ok (i, est))) :
    ∃ b : Elevator, findBestElevator s.fleet fromFloor = some b ∧ i = b.id ∧
      est = ((|b.currentFloor - fromFloor| + |fromFloor - toFloor| : Int) : ℚ)
              * cfg.floorMoveTime + 2 * cfg.doorOpenCloseTime := by
  by_cases h1 : fromFloor < 1 ∨ fromFloor > cfg.totalFloors ∨
      toFloor < 1 ∨ toFloor > cfg.totalFloors
  · rw [callElevator] at h
    simp [h1] at h
  · by_cases h2 : fromFloor = toFloor
    · subst h2
      rw [callElevator, if_neg h1, if_pos rfl] at h
      simp at h
    · rw [callElevator] at h
      simp only [if_neg h1, if_neg h2] at h
      cases hfb : findBestElevator s.fleet fromFloor with
      | none => rw [hfb] at h; simp at h
      | some b =>
        rw [hfb] at h
        simp only [Prod.mk.injEq, Except.ok.injEq] at h
        obtain ⟨hs2, hid, hest⟩ := h
        refine ⟨b, rfl, hid.symm, ?_⟩
        rw [← hest]
        simp only [calculateEstimatedTime]
        ring

/-- Witness for C4: a single idle unit at floor 1 with the call (1, 5)
at one second per floor and half a second per door phase yields the
estimate 5. -/
theorem c4_estimate_witness :
    ∃ b : Elevator, findBestElevator sysOne.fleet 1 = some b ∧ "elevator-1" = b.id ∧
      (5 : ℚ) = ((|b.currentFloor - 1| + |(1 : Int) - 5| : Int) : ℚ)
        * cfgFast.floorMoveTime + 2 * cfgFast.doorOpenCloseTime := by
  refine c4_estimate cfgFast sysOne 1 5
    ⟨[⟨"elevator-1", 1, some 5, some Dir.up, EState.idle, false⟩], [("elevator-1", [5])]⟩
    "elevator-1" 5 ?_
  have hfb : findBestElevator sysOne.fleet 1 = some (initElevator "elevator-1") := by
    decide
  rw [callElevator, if_neg (by decide), if_neg (by decide), hfb]
  simp only [Prod.mk.injEq, Except.ok.injEq]
  refine ⟨by decide, rfl, ?_⟩
  norm_num [calculateEstimatedTime, cfgFast, sysOne, initElevator]

/-- C5: the queue append of an accepted call pushes the pickup floor
only when the unit's current floor differs from it and then always the
dropoff floor; two calls in a row land both legs in the one queue, and
the engine alone — with no further external call — visits every queued
floor in FIFO order, one door cycle per queue entry. -/
theorem c5_queue_fifo (cfg : BuildingConfig) (s : UnitState)
    (f1 t1 f2 t2 : Int) (fuel : Nat)
    (hinv : EngineInv cfg s)
    (hf1a : 1 ≤ f1) (hf1b : f1 ≤ cfg.totalFloors)
    (ht1a : 1 ≤ t1) (ht1b : t1 ≤ cfg.totalFloors)
    (hf2a : 1 ≤ f2) (hf2b : f2 ≤ cfg.totalFloors)
    (ht2a : 1 ≤ t2) (ht2b : t2 ≤ cfg.totalFloors)
    (hfuel : ticksNeeded (callWrite (callWrite s f1 t1) f2 t2).e.currentFloor
               (callWrite (callWrite s f1 t1) f2 t2).queue ≤ fuel) :
    (callWrite s f1 t1).queue
        = s.queue ++ (if s.e.currentFloor ≠ f1 then [f1] else []) ++ [t1] ∧
    (callWrite (callWrite s f1 t1) f2 t2).queue
        = s.queue ++ ((if s.e.currentFloor ≠ f1 then [f1] else []) ++ [t1])
                  ++ ((if s.e.currentFloor ≠ f2 then [f2] else []) ++ [t2]) ∧
    visitedFloors (run cfg fuel (callWrite (callWrite s f1 t1) f2 t2)).2
        = (callWrite (callWrite s f1 t1) f2 t2).queue := by
  refine ⟨rfl, ?_, ?_⟩
  · simp [callWrite]
  · exact run_fifo cfg fuel _
      (engineInv_callWrite cfg _ f2 t2
        (engineInv_callWrite cfg s f1 t1 hinv hf1a hf1b ht1a ht1b) hf2a hf2b ht2a ht2b)
      hfuel

/-- Witness for C5: a unit moving up at floor 2 with stop 5 queued
takes the calls (6, 8) and (4, 1); the queue becomes
[5, 6, 8, 4, 1] and 18 engine invocations visit exactly those floors
in order. -/
theorem c5_queue_fifo_witness :
    (callWrite movingState 6 8).queue
        = movingState.queue
          ++ (if movingState.e.currentFloor ≠ 6 then [6] else []) ++ [8] ∧
    (callWrite (callWrite movingState 6 8) 4 1).queue
        = movingState.queue
          ++ ((if movingState.e.currentFloor ≠ 6 then [6] else []) ++ [8])
          ++ ((if movingState.e.currentFloor ≠ 4 then [4] else []) ++ [1]) ∧
    visitedFloors (run cfg10 18 (callWrite (callWrite movingState 6 8) 4 1)).2
        = (callWrite (callWrite movingState 6 8) 4 1).queue :=
  c5_queue_fifo cfg10 movingState 6 8 4 1 18 (by decide)
    (by decide) (by decide) (by decide) (by decide)
    (by decide) (by decide) (by decide) (by decide) (by decide)

/-- C6, counterexample: the head-equals-target invariant fails at the
idle-reset write ending each door cycle: targetFloor is cleared to 0
before the served floor is shifted off, so that persisted write has
the non-empty queue [3] while targetFloor is 0, under the default
configuration and a validated call. -/
theorem c6_counterexample :
    ¬ (∀ s : UnitState, Persisted cfg10 s → s.queue ≠ [] →
        s.e.targetFloor = some (s.queue.headD 0)) := by
  intro hall
  have hreach : Reach cfg10 arrivalPending :=
    Reach.tickStep (Reach.tickStep (Reach.call 1 3 (Reach.init "elevator-1")
      (by decide) (by decide) (by decide) (by decide) (by decide)))
  have hmem : (⟨⟨"elevator-1", 3, some 0, none, EState.idle, false⟩, [3]⟩ : UnitState)
      ∈ (tick cfg10 arrivalPending).writes := by decide
  have hbad := hall _ (Persisted.midTick hreach hmem) (by decide)
  exact absurd hbad (by decide)

/-- C6, amended: while a unit's stop queue is non-empty its targetFloor
equals the queue head at every reachable engine-boundary state and at
every mid-invocation persisted write except the door-cycle idle reset
(the write with state idle and targetFloor 0, made before the served
floor is shifted off the queue). -/
theorem c6_target_head (cfg : BuildingConfig) (hN : 1 ≤ cfg.totalFloors) :
    (∀ s : UnitState, Reach cfg s → s.queue ≠ [] →
      s.e.targetFloor = some (s.queue.headD 0)) ∧
    (∀ s w : UnitState, Reach cfg s → w ∈ (tick cfg s).writes →
      ¬ (w.e.state = EState.idle ∧ w.e.targetFloor = some 0) →
      w.queue ≠ [] → w.e.targetFloor = some (w.queue.headD 0)) := by
  constructor
  · intro s hr hne
    exact engineInv_qth cfg s (reach_engineInv cfg hN hr) hne
  · intro s w hr hw hex hne
    exact tick_writes_qth cfg s (reach_engineInv cfg hN hr) w hw hex hne

/-- Witness for C6: after the call (1, 3) on a seeded unit the queue
is [3] and targetFloor is 3, its head. -/
theorem c6_target_head_witness :
    (callWrite ⟨initElevator "elevator-2", []⟩ 1 3).e.targetFloor
      = some ((callWrite ⟨initElevator "elevator-2", []⟩ 1 3).queue.headD 0) :=
  (c6_target_head cfg10 (by decide)).1 _
    (Reach.call 1 3 (Reach.init "elevator-2") (by decide) (by decide) (by decide)
      (by decide) (by decide)) (by decide)

/-- C7: when one step in the current direction would exit
[1, totalFloors], the invocation persists exactly the boundary write —
the car keeps its floor and is forced to state idle, isMoving false,
direction null, targetFloor 1 — logs the boundary anomaly event, and
does not schedule any further invocation; and from every state
reachable through validated calls this branch is never taken. -/
theorem c7_boundary (cfg : BuildingConfig) :
    (∀ s : UnitState, boundaryBreach cfg s →
      tick cfg s = ⟨[⟨boundaryWrite s.e, s.queue⟩],
                    [⟨EventKind.elevator_idle, s.e.currentFloor, s.e.currentFloor,
                      "Elevator stopped at invalid floor boundary"⟩],
                    ⟨boundaryWrite s.e, s.queue⟩, false⟩ ∧
      (boundaryWrite s.e).currentFloor = s.e.currentFloor ∧
      (boundaryWrite s.e).state = EState.idle ∧
      (boundaryWrite s.e).isMoving = false ∧
      (boundaryWrite s.e).direction = none ∧
      (boundaryWrite s.e).targetFloor = some 1) ∧
    (1 ≤ cfg.totalFloors →
      ∀ s : UnitState, Reach cfg s → ¬ boundaryBreach cfg s) := by
  constructor
  · rintro s ⟨h1, hc, hb⟩
    obtain ⟨t, ht, ht0⟩ := nonFalsy_target _ h1
    have hc2 : ¬ s.e.currentFloor = t := by
      rw [ht] at hc
      simpa using hc
    exact ⟨tick_boundary cfg s t ht ht0 hc2 hb, rfl, rfl, rfl, rfl, rfl⟩
  · intro hN s hr
    exact engineInv_no_breach cfg s (reach_engineInv cfg hN hr)

/-- Witness for C7: the branch behavior evaluated at a unit at floor
10 targeting floor 11 under the default configuration, and the
unreachability applied to the seeded state. -/
theorem c7_boundary_witness :
    (tick cfg10 breachState = ⟨[⟨boundaryWrite breachState.e, breachState.queue⟩],
        [⟨EventKind.elevator_idle, breachState.e.currentFloor, breachState.e.currentFloor,
          "Elevator stopped at invalid floor boundary"⟩],
        ⟨boundaryWrite breachState.e, breachState.queue⟩, false⟩ ∧
      (boundaryWrite breachState.e).currentFloor = breachState.e.currentFloor ∧
      (boundaryWrite breachState.e).state = EState.idle ∧
      (boundaryWrite breachState.e).isMoving = false ∧
      (boundaryWrite breachState.e).direction = none ∧
      (boundaryWrite breachState.e).targetFloor = some 1) ∧
    ¬ boundaryBreach cfg10 ⟨initElevator "elevator-3", []⟩ :=
  ⟨(c7_boundary cfg10).1 breachState (by decide),
   (c7_boundary cfg10).2 (by decide) _ (Reach.init "elevator-3")⟩

/-- C8: a unit whose arrival invocation runs with only the served
floor left in its queue ends the door cycle in the persisted state
motionState idle, targetFloor 0, direction null, isMoving false, with
the queue empty, the chain stopped, and the logged events being the
full door cycle ending in the idle event. -/
theorem c8_journey_end (cfg : BuildingConfig) (s : UnitState) (t : Int)
    (ht : s.e.targetFloor = some t) (ht0 : ¬ t = 0)
    (hc : s.e.currentFloor = t) (hq : s.queue = [t]) :
    (tick cfg s).final.e.state = EState.idle ∧
    (tick cfg s).final.e.targetFloor = some 0 ∧
    (tick cfg s).final.e.direction = none ∧
    (tick cfg s).final.e.isMoving = false ∧
    (tick cfg s).final.queue = [] ∧
    (tick cfg s).again = false ∧
    (tick cfg s).events.map (fun r => r.event)
      = [EventKind.doors_opening, EventKind.doors_open,
         EventKind.doors_closing, EventKind.elevator_idle] := by
  have hqt : s.queue.tail = [] := by rw [hq]; rfl
  rw [tick_arrival_last cfg s t ht ht0 hc hqt]
  exact ⟨rfl, rfl, rfl, rfl, rfl, rfl, rfl⟩

/-- Witness for C8: the final-stop invocation evaluated at a unit that
has just reached floor 5 with queue [5]. -/
theorem c8_journey_end_witness :
    (tick cfg10 lastStop).final.e.state = EState.idle ∧
    (tick cfg10 lastStop).final.e.targetFloor = some 0 ∧
    (tick cfg10 lastStop).final.e.direction = none ∧
    (tick cfg10 lastStop).final.e.isMoving = false ∧
    (tick cfg10 lastStop).final.queue = [] ∧
    (tick cfg10 lastStop).again = false ∧
    (tick cfg10 lastStop).events.map (fun r => r.event)
      = [EventKind.doors_opening, EventKind.doors_open,
         EventKind.doors_closing, EventKind.elevator_idle] :=
  c8_journey_end cfg10 lastStop 5 rfl (by decide) rfl rfl

/-- C9: the dispatch selector returns exactly one unit of any
non-empty fleet and never fails there; on an empty fleet it fails, and
a validated call on an empty fleet surfaces that failure (in the
source, indexing the empty scored array throws) with no state
change. -/
theorem c9_selector_total (cfg : BuildingConfig) (fleet : List Elevator)
    (fromFloor toFloor : Int) (qs : List (String × List Int)) :
    (fleet ≠ [] →
      ∃ b : Elevator, findBestElevator fleet fromFloor = some b ∧ b ∈ fleet) ∧
    (fleet = [] → findBestElevator fleet fromFloor = none) ∧
    (fleet = [] →
      ¬ (fromFloor < 1 ∨ fromFloor > cfg.totalFloors ∨
         toFloor < 1 ∨ toFloor > cfg.totalFloors) →
      ¬ fromFloor = toFloor →
      callElevator cfg ⟨fleet, qs⟩ fromFloor toFloor
        = (⟨fleet, qs⟩, Except.error CallError.noElevator)) := by
  refine ⟨?_, ?_, ?_⟩
  · intro h
    obtain ⟨b, fl1, fl2, hb, hsplit, _, _⟩ := findBestElevator_spec fleet fromFloor h
    exact ⟨b, hb, by rw [hsplit]; simp⟩
  · rintro rfl
    rfl
  · rintro rfl h1 h2
    simp [callElevator, h1, h2, findBestElevator, sortByScore]

/-- Witness for C9: a one-unit fleet always yields a selection, and a
validated call on an empty fleet yields the selection failure. -/
theorem c9_selector_total_witness :
    (∃ b : Elevator, findBestElevator [initElevator "elevator-5"] 2 = some b ∧
      b ∈ [initElevator "elevator-5"]) ∧
    callElevator cfg10 ⟨[], []⟩ 1 5 = (⟨[], []⟩, Except.error CallError.noElevator) :=
  ⟨(c9_selector_total cfg10 [initElevator "elevator-5"] 2 5 []).1 (by decide),
   (c9_selector_total cfg10 [] 1 5 []).2.2 rfl (by decide) (by decide)⟩

/-- C10: the two near-duplicate service modules agree: their dispatch
selectors pick the same unit on every fleet and pickup floor, and
their estimate functions return the same value for the same unit,
floors and configuration. -/
theorem c10_duplicate_services_agree :
    (∀ (fleet : List Elevator) (fromFloor : Int),
      BaseSvc.findBestElevator fleet fromFloor = findBestElevator fleet fromFloor) ∧
    (∀ (e : Elevator) (fromFloor toFloor : Int) (cfg : BuildingConfig),
      BaseSvc.calculateEstimatedTime e fromFloor toFloor cfg
        = calculateEstimatedTime e fromFloor toFloor cfg) :=
  ⟨fun _ _ => rfl, fun _ _ _ _ => rfl⟩

end ElevatorSim
